import Mathlib

/-!
Shallow embedding of the streaming/normalization/ingestion pipeline of
`src/websocketapi251110.py`: symbol normalization (`split_symbol`,
`get_region`), the local order book (`LocalOrderBook.upsert_side`,
`LocalOrderBook.snapshot`), the fan-out broadcaster, the batcher, the
QuestDB ingestor's row construction (best bid/ask, mid price, spread), and
the per-venue message-handling loops.

Python floats are modelled as rationals (ℚ), Python strings as lists of
characters, Python dicts as insertion-ordered association lists with
distinct keys, and a raised exception as `Except.error`.
-/

deriving instance DecidableEq for Except

/-- A Python string, modelled as its list of characters. -/
abbrev PyStr := List Char

/-- Python `s.upper()` (symbols here are ASCII). -/
def pyUpper (s : PyStr) : PyStr := s.map Char.toUpper

/-- Python `s.split(sep)` for a one-character separator: `"a-b-c" ↦ ["a","b","c"]`,
`"" ↦ [""]`, `"-" ↦ ["", ""]`. -/
def pySplit (sep : Char) (s : PyStr) : List PyStr :=
  s.foldr (fun c acc =>
    match acc with
    | [] => [[c]]
    | g :: gs => if c = sep then [] :: g :: gs else (c :: g) :: gs) [[]]

/-- Python `s.endswith(suffix)`. -/
def pyEndsWith (suffix s : PyStr) : Bool := suffix.isSuffixOf s

/-- Python `s[:-n]` for `n ≥ 1`: drop the last `n` characters. -/
def pyDropRight (n : ℕ) (s : PyStr) : PyStr := s.take (s.length - n)

/-- Python `c in s` for a one-character needle. -/
def pyContains (c : Char) (s : PyStr) : Bool := s.contains c

/-- `split_symbol(exchange, venue_sym)` (websocketapi251110.py lines 25–85).
Returns `(base, quote, normalized_symbol)`.  `Except.error ()` models the
uncaught `ValueError` Python raises in the okx branch when
`base, quote = s.split("-")` unpacks a list whose length is not 2. -/
def split_symbol (exchange venue_sym : PyStr) : Except Unit (PyStr × PyStr × PyStr) :=
  let s := pyUpper venue_sym
  if exchange = ("upbit").data then
    match pySplit '-' s with
    | [quote, base] => .ok (base, quote, base ++ ("-").data ++ quote)
    | _ => .ok (venue_sym, [], venue_sym)
  else if exchange = ("bithumb").data then
    match pySplit '_' s with
    | [base, quote] => .ok (base, quote, base ++ ("-").data ++ quote)
    | _ => .ok (venue_sym, [], venue_sym)
  else if exchange = ("coinone").data then
    match pySplit '-' s with
    | [base, quote] => .ok (base, quote, base ++ ("-").data ++ quote)
    | _ => .ok (venue_sym, [], venue_sym)
  else if exchange = ("korbit").data then
    match pySplit '_' s with
    | [base, quote] => .ok (base, quote, base ++ ("-").data ++ quote)
    | _ => .ok (venue_sym, [], venue_sym)
  else if exchange = ("binance").data then
    if pyEndsWith ("USDT").data s then
      let base := pyDropRight 4 s
      .ok (base, ("USDT").data, base ++ ("-USD").data)
    else .ok (venue_sym, [], venue_sym)
  else if exchange = ("okx").data then
    if pyContains '-' s then
      match pySplit '-' s with
      | [base, quote] =>
        if quote = ("USDT").data then .ok (base, quote, base ++ ("-USD").data)
        else .ok (venue_sym, [], venue_sym)
      | _ => .error ()
    else .ok (venue_sym, [], venue_sym)
  else if exchange = ("bybit").data then
    if pyEndsWith ("USDT").data s then
      let base := pyDropRight 4 s
      .ok (base, ("USDT").data, base ++ ("-USD").data)
    else .ok (venue_sym, [], venue_sym)
  else .ok (venue_sym, [], venue_sym)

/-- `get_region(exchange, quote)` (lines 88–93). -/
def get_region (exchange quote : PyStr) : PyStr :=
  if exchange = ("upbit").data ∨ exchange = ("bithumb").data
      ∨ exchange = ("coinone").data ∨ exchange = ("korbit").data
      ∨ quote = ("KRW").data
  then ("KR").data else ("GLOBAL").data

/-- The venue-format guards of `split_symbol`, as the code tests them: an input
failing its exchange's guard reaches the final fallback return. -/
def split_symbol_recognizes (exchange venue_sym : PyStr) : Bool :=
  let s := pyUpper venue_sym
  if exchange = ("upbit").data then (pySplit '-' s).length == 2
  else if exchange = ("bithumb").data then (pySplit '_' s).length == 2
  else if exchange = ("coinone").data then (pySplit '-' s).length == 2
  else if exchange = ("korbit").data then (pySplit '_' s).length == 2
  else if exchange = ("binance").data then pyEndsWith ("USDT").data s
  else if exchange = ("okx").data then
    pyContains '-' s &&
      (match pySplit '-' s with
       | [_, quote] => quote == ("USDT").data
       | _ => false)
  else if exchange = ("bybit").data then pyEndsWith ("USDT").data s
  else false

/-- A Python dict mapping price to quantity, as an insertion-ordered
association list whose keys are distinct. -/
abbrev SideMap := List (ℚ × ℚ)

/-- Python `d[p] = q` on a dict: overwrite in place when the key exists,
append at the end otherwise. -/
def dictSet (m : SideMap) (p q : ℚ) : SideMap :=
  if m.any (fun e => decide (e.1 = p)) then
    m.map (fun e => if e.1 = p then (p, q) else e)
  else m ++ [(p, q)]

/-- Python `d.pop(p, None)` on a dict. -/
def dictPop (m : SideMap) (p : ℚ) : SideMap :=
  m.filter (fun e => decide (e.1 ≠ p))

/-- The key set of a side dict is distinct (a dict cannot hold a key twice). -/
def keysNodup (m : SideMap) : Prop := (m.map Prod.fst).Nodup

instance (m : SideMap) : Decidable (keysNodup m) :=
  inferInstanceAs (Decidable ((m.map Prod.fst).Nodup))

/-- `LocalOrderBook` (lines 97–119): price→quantity maps for each side. -/
structure LocalOrderBook where
  symbol : PyStr
  bids : SideMap
  asks : SideMap
  last_update_id : ℤ
deriving DecidableEq

/-- `LocalOrderBook.upsert_side` (lines 104–110): for each `(price, qty)`
update, a zero quantity pops the price key and any other quantity sets it. -/
def LocalOrderBook.upsert_side (side_dict : SideMap) (updates : List (ℚ × ℚ)) : SideMap :=
  updates.foldl (fun d e => if e.2 = 0 then dictPop d e.1 else dictSet d e.1 e.2) side_dict

/-- The dict produced by a dict comprehension `{float(p): float(q) for ...}`,
as used by the full-snapshot venues to replace a side wholesale
(e.g. `OKXStreamer.run`, lines 227–228): entries are stored verbatim. -/
def dictOfPairs (pairs : List (ℚ × ℚ)) : SideMap :=
  pairs.foldl (fun d e => dictSet d e.1 e.2) []

/-- A depth snapshot (lines 112–119): sorted, truncated sides. -/
structure DepthSnapshot where
  symbol : PyStr
  ts : ℚ
  bids : List (ℚ × ℚ)
  asks : List (ℚ × ℚ)
  last_update_id : ℤ
deriving DecidableEq

/-- Python `sorted(..., key=lambda x: -x[0])`: non-strictly descending by price. -/
def bidOrder : (ℚ × ℚ) → (ℚ × ℚ) → Prop := fun x y => y.1 ≤ x.1

/-- Python `sorted(..., key=lambda x: x[0])`: non-strictly ascending by price. -/
def askOrder : (ℚ × ℚ) → (ℚ × ℚ) → Prop := fun x y => x.1 ≤ y.1

instance : DecidableRel bidOrder := fun x y => inferInstanceAs (Decidable (y.1 ≤ x.1))

instance : DecidableRel askOrder := fun x y => inferInstanceAs (Decidable (x.1 ≤ y.1))

instance : IsTotal (ℚ × ℚ) bidOrder := ⟨fun x y => le_total y.1 x.1⟩

instance : IsTotal (ℚ × ℚ) askOrder := ⟨fun x y => le_total x.1 y.1⟩

instance : IsTrans (ℚ × ℚ) bidOrder := ⟨fun _ _ _ h1 h2 => le_trans h2 h1⟩

instance : IsTrans (ℚ × ℚ) askOrder := ⟨fun _ _ _ h1 h2 => le_trans h1 h2⟩

/-- `LocalOrderBook.snapshot` (lines 112–119): sort the bid items descending
and the ask items ascending by price, truncate both to `top_n`.  The wall
clock read `time.time()` is passed in as `now`. -/
def LocalOrderBook.snapshot (book : LocalOrderBook) (now : ℚ) (top_n : ℕ) : DepthSnapshot :=
  { symbol := book.symbol
    ts := now
    bids := (List.insertionSort bidOrder book.bids).take top_n
    asks := (List.insertionSort askOrder book.asks).take top_n
    last_update_id := book.last_update_id }

/-- Python `d.get(p)` on a side dict. -/
def dictGet (m : SideMap) (p : ℚ) : Option ℚ :=
  (m.find? (fun e => decide (e.1 = p))).map Prod.snd

/-- A side of the book. -/
inductive Side where
  | bid
  | ask
deriving DecidableEq

/-- An update operation on a `LocalOrderBook` side, as the venue streamers
perform them: an incremental `upsert_side` call (Binance lines 175–176, Bybit
lines 293–296) or a wholesale replacement of the side map by a dict built
from the venue payload (OKX lines 227–228, Upbit lines 351–354, Bithumb,
Coinone, Korbit, and the Bybit REST bootstrap). -/
inductive BookOp where
  | upsert (side : Side) (updates : List (ℚ × ℚ))
  | replace (side : Side) (pairs : List (ℚ × ℚ))
deriving DecidableEq

/-- Apply one update operation to the book. -/
def apply_op (book : LocalOrderBook) (op : BookOp) : LocalOrderBook :=
  match op with
  | .upsert .bid updates => { book with bids := LocalOrderBook.upsert_side book.bids updates }
  | .upsert .ask updates => { book with asks := LocalOrderBook.upsert_side book.asks updates }
  | .replace .bid pairs => { book with bids := dictOfPairs pairs }
  | .replace .ask pairs => { book with asks := dictOfPairs pairs }

/-- Apply a sequence of update operations to the book, in order. -/
def apply_ops (book : LocalOrderBook) (ops : List BookOp) : LocalOrderBook :=
  ops.foldl apply_op book

/-- No level of the side map carries quantity zero. -/
def zero_free (m : SideMap) : Prop := ∀ e ∈ m, e.2 ≠ 0

instance (m : SideMap) : Decidable (zero_free m) :=
  inferInstanceAs (Decidable (∀ e ∈ m, e.2 ≠ 0))

/-- Whether a replacement operation's payload carries no zero quantity
(an `upsert` is unconstrained: `upsert_side` removes zero-quantity levels
itself). -/
def replace_payload_ok : BookOp → Bool
  | .replace _ pairs => decide (zero_free pairs)
  | .upsert _ _ => true

/-- An `OrderBookEvent` as `BaseStreamer.publish` builds it (lines 133–144). -/
structure OBEvent where
  exchange : PyStr
  symbol : PyStr
  venue_symbol : PyStr
  event_ts : ℚ
  recv_ts : ℚ
  seq : ℤ
  depth : DepthSnapshot
  raw : PyStr
deriving DecidableEq

/-- Python truthiness of `best_bid` / `best_ask` in `questdb_consumer`
(line 662): `None` and `0.0` are falsy, every other float is truthy. -/
def pyTruthy (x : Option ℚ) : Bool :=
  match x with
  | none => false
  | some v => decide (v ≠ 0)

/-- Python `int(x)` on a float: truncation toward zero. -/
def pyInt (x : ℚ) : ℤ := x.num.tdiv (x.den : ℤ)

/-- Best-price extraction and derived metrics of `questdb_consumer`
(lines 652–664), returning `(best_bid, best_ask, mid_price, spread_bps)`.
`best_bid = bids[0][0] if bids else None`, symmetrically for asks;
`mid_price`/`spread_bps` are computed only when `best_bid and best_ask` is
truthy.  `Except.error ()` models the `ZeroDivisionError` Python raises when
`mid_price == 0.0`. -/
def derive_metrics (depth : DepthSnapshot) :
    Except Unit (Option ℚ × Option ℚ × Option ℚ × Option ℚ) :=
  let best_bid := depth.bids.head?.map Prod.fst
  let best_ask := depth.asks.head?.map Prod.fst
  if pyTruthy best_bid && pyTruthy best_ask then
    match best_bid, best_ask with
    | some b, some a =>
      let mid := (b + a) / 2
      if mid = 0 then .error ()
      else .ok (best_bid, best_ask, some mid, some ((a - b) / mid * 10000))
    | _, _ => .ok (best_bid, best_ask, none, none)
  else .ok (best_bid, best_ask, none, none)

/-- One row of the `orderbook` table, tags and fields as `sender.row` receives
them (lines 667–689); the JSON-serialized payloads are modelled by the values
they serialize. -/
structure QRow where
  exchange : PyStr
  symbol : PyStr
  base : PyStr
  quote : PyStr
  region : PyStr
  venue_type : PyStr
  inst : PyStr
  seq : ℤ
  best_bid : Option ℚ
  best_ask : Option ℚ
  mid_price : Option ℚ
  spread_bps : Option ℚ
  recv_ts_s : ℚ
  depth_json : DepthSnapshot
  raw_json : PyStr
  at_ns : ℤ
deriving DecidableEq

/-- The body of `questdb_consumer`'s per-event `try` block (lines 642–689):
build one row from one event.  Any exception along the way — the okx
`ValueError` out of `split_symbol`, the `ZeroDivisionError` out of the spread
computation — is an error, caught by the per-event handler. -/
def build_row (ev : OBEvent) : Except Unit QRow :=
  match split_symbol ev.exchange ev.venue_symbol with
  | .error e => .error e
  | .ok (base, quote, normalized) =>
    let region := get_region ev.exchange quote
    match derive_metrics ev.depth with
    | .error e => .error e
    | .ok (best_bid, best_ask, mid_price, spread_bps) =>
      .ok { exchange := ev.exchange
            symbol := normalized
            base := base
            quote := quote
            region := region
            venue_type := ("SPOT").data
            inst := ("A").data
            seq := ev.seq
            best_bid := best_bid
            best_ask := best_ask
            mid_price := mid_price
            spread_bps := spread_bps
            recv_ts_s := ev.recv_ts
            depth_json := ev.depth
            raw_json := ev.raw
            at_ns := pyInt (ev.event_ts * 1000000000) }

/-- The per-batch loop of `questdb_consumer` (lines 641–693): submit each
event's row in order; a failing event is logged and skipped (`continue`) and
the loop moves on to the next event. -/
def ingest_batch (batch : List OBEvent) : List QRow :=
  batch.foldl (fun rows ev =>
    match build_row ev with
    | .ok r => rows ++ [r]
    | .error _ => rows) []

/-- The outer loop of `questdb_consumer` (lines 638–697): each consumed batch
produces exactly one `sender.flush()`, carrying the rows submitted for that
batch. -/
def questdb_consumer_flushes (batches : List (List OBEvent)) : List (List QRow) :=
  batches.foldl (fun out batch => out ++ [ingest_batch batch]) []

/-- One iteration of `broadcaster` (lines 551–557): the event taken from the
source queue is put on every destination queue, in registration order. -/
def broadcaster_step {ε : Type} (queues : List (List ε)) (ev : ε) : List (List ε) :=
  queues.map (fun q => q ++ [ev])

/-- `broadcaster` run over a finite prefix of the source queue: fold the
per-event fan-out over the events in arrival order. -/
def broadcaster_run {ε : Type} (evs : List ε) (queues : List (List ε)) : List (List ε) :=
  evs.foldl broadcaster_step queues

/-- The state of `batcher` (lines 598–623) between loop iterations: the
buffer, the time of the last flush, the wall-clock time, and the batches
emitted so far.  Timestamps live in a linearly ordered additive group `T`
(the code's float seconds). -/
structure BatcherState (T : Type) (α : Type) where
  buf : List α
  last_flush : T
  now : T
  batches : List (List α)
deriving DecidableEq

/-- The flush check at the bottom of `batcher`'s loop (lines 612–623):
`should_flush = len(buf) >= batch_size or (buf and now - last_flush >= max_wait)`,
and `if should_flush and buf:` emit the buffer as one batch, clear it and
record the flush time. -/
def flush_check {T α : Type} [LinearOrderedAddCommGroup T] [DecidableEq α]
    (B : ℕ) (W : T) (s : BatcherState T α) : BatcherState T α :=
  if (B ≤ s.buf.length ∨ (s.buf ≠ [] ∧ W ≤ s.now - s.last_flush)) ∧ s.buf ≠ [] then
    { buf := [], last_flush := s.now, now := s.now, batches := s.batches ++ [s.buf] }
  else s

/-- Processing of one incoming event by `batcher` (lines 604–623).  While the
event has not arrived within `max_wait` of the wait start, `asyncio.wait_for`
times out: the wall clock advances by `W` and the flush check runs on the
unchanged buffer (only the first such timeout can flush, the buffer being
empty afterwards, so one conditional check captures every timeout window).
Then the event is received at its arrival time, appended to the buffer, and
the flush check runs again. -/
def batcher_step {T α : Type} [LinearOrderedAddCommGroup T] [DecidableEq α]
    (B : ℕ) (W : T) (s : BatcherState T α) (e : T × α) : BatcherState T α :=
  let s1 := if s.now + W ≤ e.1 then
      flush_check B W { buf := s.buf, last_flush := s.last_flush, now := s.now + W, batches := s.batches }
    else s
  flush_check B W { buf := s1.buf ++ [e.2], last_flush := s1.last_flush, now := e.1, batches := s1.batches }

/-- `batcher` run over a finite timed event sequence, starting with an empty
buffer at time `start` (= the initial `last_flush = time.time()`). -/
def batcher_run {T α : Type} [LinearOrderedAddCommGroup T] [DecidableEq α]
    (B : ℕ) (W : T) (start : T) (evs : List (T × α)) : BatcherState T α :=
  evs.foldl (batcher_step B W) { buf := [], last_flush := start, now := start, batches := [] }

/-- All batches `batcher` emits for the sequence: those emitted while the
events arrived, plus the flush of a leftover non-empty buffer on the first
timeout after the last event (the loop runs forever, so that timeout comes). -/
def batcher_batches {T α : Type} [LinearOrderedAddCommGroup T] [DecidableEq α]
    (B : ℕ) (W : T) (start : T) (evs : List (T × α)) : List (List α) :=
  let s := batcher_run B W start evs
  s.batches ++ (if s.buf = [] then [] else [s.buf])

/-- `ceil(n / b)` on naturals. -/
def ceil_div (n b : ℕ) : ℕ := (n + b - 1) / b

/-- An `asyncio.Queue`: `maxsize = 0` (the constructor's default) means
unbounded capacity. -/
structure AsyncQueue where
  maxsize : ℕ
deriving DecidableEq

/-- An `asyncio.Queue` is full — and `put` suspends — exactly when its
`maxsize` is positive and the queue holds at least that many items. -/
def AsyncQueue.put_blocks (q : AsyncQueue) (len : ℕ) : Bool :=
  decide (0 < q.maxsize) && decide (q.maxsize ≤ len)

/-- A queue has a finite capacity bound exactly when its `maxsize` is positive. -/
def AsyncQueue.bounded (q : AsyncQueue) : Bool := decide (0 < q.maxsize)

/-- `central_q = asyncio.Queue()` (main, line 703). -/
def central_q : AsyncQueue := { maxsize := 0 }

/-- `realtime_q = asyncio.Queue()` (main, line 704). -/
def realtime_q : AsyncQueue := { maxsize := 0 }

/-- `file_q = asyncio.Queue()` (main, line 705). -/
def file_q : AsyncQueue := { maxsize := 0 }

/-- `db_batch_q = asyncio.Queue()` (main, line 706). -/
def db_batch_q : AsyncQueue := { maxsize := 0 }

/-- `db_staging_q = asyncio.Queue()` (main, line 707). -/
def db_staging_q : AsyncQueue := { maxsize := 0 }

/-- The downstream consumer queues the broadcaster feeds (line 795). -/
def downstream_queues : List AsyncQueue := [realtime_q, file_q, db_staging_q]

/-- Every queue `main` creates (lines 703–707). -/
def main_queues : List AsyncQueue :=
  [central_q, realtime_q, file_q, db_batch_q, db_staging_q]

/-- The payload under the `data` key of a Binance depth message, each field
`Option` because an inbound message may lack it (`data["b"]` etc. raise
`KeyError` when missing). -/
structure BinanceDepthData where
  b : Option (List (ℚ × ℚ))
  a : Option (List (ℚ × ℚ))
  u : Option ℤ
  E : Option ℚ
deriving DecidableEq

/-- An inbound Binance frame after `json.loads`: `json.loads(msg)["data"]`
raises `KeyError` when the `data` key is absent. -/
structure BinanceMsg where
  data : Option BinanceDepthData
deriving DecidableEq

/-- The per-message body of `BinanceStreamer._one`'s read loop (lines
172–186): apply both sides to the book, set `last_update_id`, publish one
event built from a fresh 20-level snapshot.  A missing field raises
(`Except.error ()`), uncaught inside the read loop. -/
def binance_handle (lob : LocalOrderBook) (recv_ts : ℚ) (m : BinanceMsg) :
    Except Unit (LocalOrderBook × Option DepthSnapshot) :=
  match m.data with
  | none => .error ()
  | some d =>
    match d.b, d.a, d.u, d.E with
    | some bs, some as_, some u, some _ =>
      let lob1 : LocalOrderBook :=
        { symbol := lob.symbol
          bids := LocalOrderBook.upsert_side lob.bids bs
          asks := LocalOrderBook.upsert_side lob.asks as_
          last_update_id := u }
      .ok (lob1, some (lob1.snapshot recv_ts 20))
    | _, _, _, _ => .error ()

/-- An inbound Upbit frame after decoding: the fields `UpbitStreamer.run`
reads (lines 332–366).  `msg.get("type")` and `msg.get("orderbook_units", [])`
tolerate absence; `msg["code"]` raises `KeyError` when absent. -/
structure UpbitMsg where
  type : Option PyStr
  code : Option PyStr
  orderbook_units : Option (List ((Option ℚ) × (Option ℚ) × (Option ℚ) × (Option ℚ)))
  timestamp : Option ℤ
deriving DecidableEq

/-- One unit's bid part for the dict comprehension of lines 351–352: the
comprehension guard is `if u.get("bid_price")` (Python truthiness), and the
kept entries read `u["bid_price"]`, `u["bid_size"]`, raising on a missing
size. -/
def upbit_bid_entries (units : List ((Option ℚ) × (Option ℚ) × (Option ℚ) × (Option ℚ))) :
    Except Unit (List (ℚ × ℚ)) :=
  (units.filter (fun u => pyTruthy u.1)).mapM (fun u =>
    match u.1, u.2.1 with
    | some p, some sz => .ok (p, sz)
    | _, _ => .error ())

/-- The ask-side analogue of `upbit_bid_entries` (lines 353–354). -/
def upbit_ask_entries (units : List ((Option ℚ) × (Option ℚ) × (Option ℚ) × (Option ℚ))) :
    Except Unit (List (ℚ × ℚ)) :=
  (units.filter (fun u => pyTruthy u.2.2.1)).mapM (fun u =>
    match u.2.2.1, u.2.2.2 with
    | some p, some sz => .ok (p, sz)
    | _, _ => .error ())

/-- The per-message body of `UpbitStreamer.run`'s read loop (lines 332–366)
for a single configured symbol.  A message whose `type` is not `"orderbook"`
or whose code resolves to no configured book is dropped (`.ok (lob, none)`);
a message that passes the guards but lacks a required field raises. -/
def upbit_handle (lob : LocalOrderBook) (recv_ts : ℚ) (m : UpbitMsg) :
    Except Unit (LocalOrderBook × Option DepthSnapshot) :=
  if m.type ≠ some ("orderbook").data then .ok (lob, none)
  else
    match m.code with
    | none => .error ()
    | some code =>
      if code ≠ lob.symbol then .ok (lob, none)
      else do
        let units := m.orderbook_units.getD []
        let bids ← upbit_bid_entries units
        let asks ← upbit_ask_entries units
        let lob1 : LocalOrderBook :=
          { symbol := lob.symbol
            bids := dictOfPairs bids
            asks := dictOfPairs asks
            last_update_id := m.timestamp.getD 0 }
        .ok (lob1, some (lob1.snapshot recv_ts 20))

/-- How a connection ends in the model: the inbound trace is exhausted, a
transport failure closed it, or an uncaught exception while handling a
message tore it down. -/
inductive ConnEnd where
  | exhausted
  | transport_teardown
  | parse_teardown
deriving DecidableEq

/-- What arrives on a websocket connection: a parsed frame or a
transport-level failure. -/
inductive WireItem (μ : Type) where
  | msg (m : μ)
  | transport_failure
deriving DecidableEq

/-- The `async for msg in ws:` read loop shared by every streamer: process
frames until the trace ends, a transport failure closes the socket, or a
handler raises — any exception leaves the `async with` block, so the
connection is torn down and the `except`/sleep/reconnect path runs (lines
168–189, 322–370). -/
def run_connection {μ : Type}
    (handle : LocalOrderBook → ℚ → μ → Except Unit (LocalOrderBook × Option DepthSnapshot))
    (lob : LocalOrderBook) (recv_ts : ℚ) :
    List (WireItem μ) → LocalOrderBook × List DepthSnapshot × ConnEnd
  | [] => (lob, [], .exhausted)
  | .transport_failure :: _ => (lob, [], .transport_teardown)
  | .msg m :: rest =>
    match handle lob recv_ts m with
    | .error _ => (lob, [], .parse_teardown)
    | .ok (lob1, out) =>
      let (lob2, outs, e) := run_connection handle lob1 recv_ts rest
      (lob2, out.toList ++ outs, e)

/-- C6 counterexample: none of the downstream consumer queues connecting the
distributor to its consumers (`realtime_q`, `file_q`, `db_staging_q`) has a
finite capacity bound — all are created as `asyncio.Queue()` with the default
`maxsize = 0`, i.e. unbounded. -/
theorem C6_counterexample :
    downstream_queues.all AsyncQueue.bounded = false
  ∧ realtime_q.maxsize = 0 ∧ file_q.maxsize = 0 ∧ db_staging_q.maxsize = 0 := by decide

/-- C6 (amended): every queue `main` creates has `maxsize = 0`, so a `put` on
it never suspends regardless of how many items it already holds: there is no
backpressure, and a catastrophically slow consumer's queue grows without
bound. -/
theorem C6_theorem (q : AsyncQueue) (hq : q ∈ main_queues) (n : ℕ) :
    q.maxsize = 0 ∧ q.put_blocks n = false := by
  have hm : q.maxsize = 0 := by
    simp only [main_queues, central_q, realtime_q, file_q, db_batch_q, db_staging_q,
      List.mem_cons, List.not_mem_nil, or_false] at hq
    rcases hq with rfl | rfl | rfl | rfl | rfl <;> rfl
  exact ⟨hm, by simp [AsyncQueue.put_blocks, hm]⟩

/-- C6 witness: the realtime console queue, concretely. -/
theorem C6_witness : realtime_q.maxsize = 0 ∧ realtime_q.put_blocks 1000000 = false :=
  C6_theorem realtime_q (by decide) 1000000

/-- C9: `split_symbol("binance", "dogeusdt")` returns base `DOGE`, quote
`USDT`, canonical `DOGE-USD`; `split_symbol("upbit", "KRW-BTC")` returns base
`BTC`, quote `KRW`, canonical `BTC-KRW`; and for every USDT-quoted pair of a
global exchange (binance/bybit: upper-cased symbol ending in `USDT`; okx:
symbol splitting on the dash into a base and `USDT`) the canonical display
quote is rewritten to `USD` while the returned quote component remains
`USDT`. -/
theorem C9_theorem :
    split_symbol ("binance").data ("dogeusdt").data
      = .ok (("DOGE").data, ("USDT").data, ("DOGE-USD").data)
  ∧ split_symbol ("upbit").data ("KRW-BTC").data
      = .ok (("BTC").data, ("KRW").data, ("BTC-KRW").data)
  ∧ (∀ s : PyStr, pyEndsWith ("USDT").data (pyUpper s) = true →
      split_symbol ("binance").data s
        = .ok (pyDropRight 4 (pyUpper s), ("USDT").data,
               pyDropRight 4 (pyUpper s) ++ ("-USD").data)
      ∧ split_symbol ("bybit").data s
        = .ok (pyDropRight 4 (pyUpper s), ("USDT").data,
               pyDropRight 4 (pyUpper s) ++ ("-USD").data))
  ∧ (∀ s base : PyStr, pyContains '-' (pyUpper s) = true →
      pySplit '-' (pyUpper s) = [base, ("USDT").data] →
      split_symbol ("okx").data s = .ok (base, ("USDT").data, base ++ ("-USD").data)) := by
  refine ⟨by decide, by decide, ?_, ?_⟩
  · intro s h
    constructor
    · show (if pyEndsWith ("USDT").data (pyUpper s) = true then
            Except.ok (pyDropRight 4 (pyUpper s), ("USDT").data,
              pyDropRight 4 (pyUpper s) ++ ("-USD").data)
          else Except.ok (s, [], s)) = _
      rw [if_pos h]
    · show (if pyEndsWith ("USDT").data (pyUpper s) = true then
            Except.ok (pyDropRight 4 (pyUpper s), ("USDT").data,
              pyDropRight 4 (pyUpper s) ++ ("-USD").data)
          else Except.ok (s, [], s)) = _
      rw [if_pos h]
  · intro s base hc hsp
    show (if pyContains '-' (pyUpper s) = true then
          match pySplit '-' (pyUpper s) with
          | [base, quote] =>
            if quote = ("USDT").data then Except.ok (base, quote, base ++ ("-USD").data)
            else Except.ok (s, [], s)
          | _ => Except.error ()
        else Except.ok (s, [], s)) = _
    rw [if_pos hc, hsp]
    simp

/-- C9 witness: the okx and binance normalizations at concrete symbols. -/
theorem C9_witness :
    split_symbol ("okx").data ("ETH-USDT").data
      = .ok (("ETH").data, ("USDT").data, ("ETH-USD").data)
  ∧ split_symbol ("binance").data ("ethusdt").data
      = .ok (("ETH").data, ("USDT").data, ("ETH-USD").data) :=
  ⟨C9_theorem.2.2.2 ("ETH-USDT").data ("ETH").data (by decide) (by decide),
   (C9_theorem.2.2.1 ("ethusdt").data (by decide)).1⟩

/-- C8 counterexample: `split_symbol` is not total — for the okx exchange and
a venue symbol containing two dashes (e.g. an OKX swap instrument name
`BTC-USDT-SWAP`), `base, quote = s.split("-")` raises `ValueError`, although
the input does not match okx's recognized spot format. -/
theorem C8_counterexample :
    split_symbol ("okx").data ("BTC-USDT-SWAP").data = Except.error ()
  ∧ split_symbol_recognizes ("okx").data ("BTC-USDT-SWAP").data = false := by decide

lemma split_symbol_upbit (v : PyStr) :
    split_symbol ("upbit").data v
      = match pySplit '-' (pyUpper v) with
        | [quote, base] => Except.ok (base, quote, base ++ ("-").data ++ quote)
        | _ => Except.ok (v, [], v) := rfl

lemma split_symbol_bithumb (v : PyStr) :
    split_symbol ("bithumb").data v
      = match pySplit '_' (pyUpper v) with
        | [base, quote] => Except.ok (base, quote, base ++ ("-").data ++ quote)
        | _ => Except.ok (v, [], v) := rfl

lemma split_symbol_coinone (v : PyStr) :
    split_symbol ("coinone").data v
      = match pySplit '-' (pyUpper v) with
        | [base, quote] => Except.ok (base, quote, base ++ ("-").data ++ quote)
        | _ => Except.ok (v, [], v) := rfl

lemma split_symbol_korbit (v : PyStr) :
    split_symbol ("korbit").data v
      = match pySplit '_' (pyUpper v) with
        | [base, quote] => Except.ok (base, quote, base ++ ("-").data ++ quote)
        | _ => Except.ok (v, [], v) := rfl

lemma split_symbol_binance (v : PyStr) :
    split_symbol ("binance").data v
      = if pyEndsWith ("USDT").data (pyUpper v) = true then
          Except.ok (pyDropRight 4 (pyUpper v), ("USDT").data,
            pyDropRight 4 (pyUpper v) ++ ("-USD").data)
        else Except.ok (v, [], v) := rfl

lemma split_symbol_okx (v : PyStr) :
    split_symbol ("okx").data v
      = if pyContains '-' (pyUpper v) = true then
          match pySplit '-' (pyUpper v) with
          | [base, quote] =>
            if quote = ("USDT").data then Except.ok (base, quote, base ++ ("-USD").data)
            else Except.ok (v, [], v)
          | _ => Except.error ()
        else Except.ok (v, [], v) := rfl

lemma split_symbol_bybit (v : PyStr) :
    split_symbol ("bybit").data v
      = if pyEndsWith ("USDT").data (pyUpper v) = true then
          Except.ok (pyDropRight 4 (pyUpper v), ("USDT").data,
            pyDropRight 4 (pyUpper v) ++ ("-USD").data)
        else Except.ok (v, [], v) := rfl

lemma split_symbol_other (exchange v : PyStr)
    (h1 : ¬ exchange = ("upbit").data) (h2 : ¬ exchange = ("bithumb").data)
    (h3 : ¬ exchange = ("coinone").data) (h4 : ¬ exchange = ("korbit").data)
    (h5 : ¬ exchange = ("binance").data) (h6 : ¬ exchange = ("okx").data)
    (h7 : ¬ exchange = ("bybit").data) :
    split_symbol exchange v = Except.ok (v, [], v) := by
  simp only [split_symbol]
  rw [if_neg h1, if_neg h2, if_neg h3, if_neg h4, if_neg h5, if_neg h6, if_neg h7]

lemma split_symbol_recognizes_upbit (v : PyStr) :
    split_symbol_recognizes ("upbit").data v
      = ((pySplit '-' (pyUpper v)).length == 2) := rfl

lemma split_symbol_recognizes_bithumb (v : PyStr) :
    split_symbol_recognizes ("bithumb").data v
      = ((pySplit '_' (pyUpper v)).length == 2) := rfl

lemma split_symbol_recognizes_coinone (v : PyStr) :
    split_symbol_recognizes ("coinone").data v
      = ((pySplit '-' (pyUpper v)).length == 2) := rfl

lemma split_symbol_recognizes_korbit (v : PyStr) :
    split_symbol_recognizes ("korbit").data v
      = ((pySplit '_' (pyUpper v)).length == 2) := rfl

lemma split_symbol_recognizes_binance (v : PyStr) :
    split_symbol_recognizes ("binance").data v = pyEndsWith ("USDT").data (pyUpper v) := rfl

lemma split_symbol_recognizes_okx (v : PyStr) :
    split_symbol_recognizes ("okx").data v
      = (pyContains '-' (pyUpper v) &&
          (match pySplit '-' (pyUpper v) with
           | [_, quote] => quote == ("USDT").data
           | _ => false)) := rfl

lemma split_symbol_recognizes_bybit (v : PyStr) :
    split_symbol_recognizes ("bybit").data v = pyEndsWith ("USDT").data (pyUpper v) := rfl

/-- C8 (amended): `split_symbol` raises exactly for okx inputs whose
upper-cased symbol contains a dash and does not split into exactly two
dash-separated parts; on every other input it is total, and wherever it does
not raise, an input failing its venue's recognized-format guard returns
`(venueSymbol, "", venueSymbol)` with the input string unchanged. -/
theorem C8_theorem (exchange venue_sym : PyStr) :
    (split_symbol exchange venue_sym = .error ()
      ↔ exchange = ("okx").data ∧ pyContains '-' (pyUpper venue_sym) = true
          ∧ (pySplit '-' (pyUpper venue_sym)).length ≠ 2)
  ∧ (split_symbol_recognizes exchange venue_sym = false →
      split_symbol exchange venue_sym ≠ .error () →
      split_symbol exchange venue_sym = .ok (venue_sym, [], venue_sym)) := by
  by_cases h1 : exchange = ("upbit").data
  · subst h1
    constructor
    · rw [split_symbol_upbit]
      refine iff_of_false ?_ (by rintro ⟨h, -, -⟩; exact absurd h (by decide))
      rcases hsp : pySplit '-' (pyUpper venue_sym) with _ | ⟨x, _ | ⟨y, _ | ⟨z, t⟩⟩⟩ <;> simp
    · rw [split_symbol_recognizes_upbit, split_symbol_upbit]
      intro hrec hne
      rcases hsp : pySplit '-' (pyUpper venue_sym) with _ | ⟨x, _ | ⟨y, _ | ⟨z, t⟩⟩⟩
      · rfl
      · rfl
      · rw [hsp] at hrec; simp at hrec
      · rfl
  · by_cases h2 : exchange = ("bithumb").data
    · subst h2
      constructor
      · rw [split_symbol_bithumb]
        refine iff_of_false ?_ (by rintro ⟨h, -, -⟩; exact absurd h (by decide))
        rcases hsp : pySplit '_' (pyUpper venue_sym) with _ | ⟨x, _ | ⟨y, _ | ⟨z, t⟩⟩⟩ <;> simp
      · rw [split_symbol_recognizes_bithumb, split_symbol_bithumb]
        intro hrec hne
        rcases hsp : pySplit '_' (pyUpper venue_sym) with _ | ⟨x, _ | ⟨y, _ | ⟨z, t⟩⟩⟩
        · rfl
        · rfl
        · rw [hsp] at hrec; simp at hrec
        · rfl
    · by_cases h3 : exchange = ("coinone").data
      · subst h3
        constructor
        · rw [split_symbol_coinone]
          refine iff_of_false ?_ (by rintro ⟨h, -, -⟩; exact absurd h (by decide))
          rcases hsp : pySplit '-' (pyUpper venue_sym) with _ | ⟨x, _ | ⟨y, _ | ⟨z, t⟩⟩⟩ <;> simp
        · rw [split_symbol_recognizes_coinone, split_symbol_coinone]
          intro hrec hne
          rcases hsp : pySplit '-' (pyUpper venue_sym) with _ | ⟨x, _ | ⟨y, _ | ⟨z, t⟩⟩⟩
          · rfl
          · rfl
          · rw [hsp] at hrec; simp at hrec
          · rfl
      · by_cases h4 : exchange = ("korbit").data
        · subst h4
          constructor
          · rw [split_symbol_korbit]
            refine iff_of_false ?_ (by rintro ⟨h, -, -⟩; exact absurd h (by decide))
            rcases hsp : pySplit '_' (pyUpper venue_sym) with _ | ⟨x, _ | ⟨y, _ | ⟨z, t⟩⟩⟩ <;> simp
          · rw [split_symbol_recognizes_korbit, split_symbol_korbit]
            intro hrec hne
            rcases hsp : pySplit '_' (pyUpper venue_sym) with _ | ⟨x, _ | ⟨y, _ | ⟨z, t⟩⟩⟩
            · rfl
            · rfl
            · rw [hsp] at hrec; simp at hrec
            · rfl
        · by_cases h5 : exchange = ("binance").data
          · subst h5
            constructor
            · rw [split_symbol_binance]
              refine iff_of_false ?_ (by rintro ⟨h, -, -⟩; exact absurd h (by decide))
              by_cases he : pyEndsWith ("USDT").data (pyUpper venue_sym) = true
              · rw [if_pos he]; simp
              · rw [if_neg he]; simp
            · rw [split_symbol_recognizes_binance, split_symbol_binance]
              intro hrec hne
              rw [if_neg (by simp [hrec])]
          · by_cases h6 : exchange = ("okx").data
            · subst h6
              constructor
              · rw [split_symbol_okx]
                by_cases hc : pyContains '-' (pyUpper venue_sym) = true
                · rw [if_pos hc]
                  rcases hsp : pySplit '-' (pyUpper venue_sym) with _ | ⟨x, _ | ⟨y, _ | ⟨z, t⟩⟩⟩
                  · exact iff_of_true rfl ⟨rfl, hc, by simp⟩
                  · exact iff_of_true rfl ⟨rfl, hc, by simp⟩
                  · refine iff_of_false ?_ (by rintro ⟨-, -, hl⟩; exact hl rfl)
                    by_cases hu : y = ("USDT").data <;> simp [hu]
                  · refine iff_of_true rfl ⟨rfl, hc, ?_⟩
                    simp only [List.length_cons]
                    omega
                · rw [if_neg hc]
                  exact iff_of_false (by simp) (by rintro ⟨-, hcc, -⟩; exact hc hcc)
              · rw [split_symbol_recognizes_okx, split_symbol_okx]
                intro hrec hne
                by_cases hc : pyContains '-' (pyUpper venue_sym) = true
                · rw [if_pos hc] at hne ⊢
                  rw [hc, Bool.true_and] at hrec
                  rcases hsp : pySplit '-' (pyUpper venue_sym) with _ | ⟨x, _ | ⟨y, _ | ⟨z, t⟩⟩⟩
                  · exact absurd (by rw [hsp]) hne
                  · exact absurd (by rw [hsp]) hne
                  · have hy : ¬ y = ("USDT").data := by
                      rw [hsp] at hrec; simpa using hrec
                    simp [hy]
                  · exact absurd (by rw [hsp]) hne
                · rw [if_neg hc]
            · by_cases h7 : exchange = ("bybit").data
              · subst h7
                constructor
                · rw [split_symbol_bybit]
                  refine iff_of_false ?_ (by rintro ⟨h, -, -⟩; exact absurd h (by decide))
                  by_cases he : pyEndsWith ("USDT").data (pyUpper venue_sym) = true
                  · rw [if_pos he]; simp
                  · rw [if_neg he]; simp
                · rw [split_symbol_recognizes_bybit, split_symbol_bybit]
                  intro hrec hne
                  rw [if_neg (by simp [hrec])]
              · constructor
                · rw [split_symbol_other exchange venue_sym h1 h2 h3 h4 h5 h6 h7]
                  exact iff_of_false (by simp) (by rintro ⟨h, -, -⟩; exact h6 h)
                · intro _ _
                  exact split_symbol_other exchange venue_sym h1 h2 h3 h4 h5 h6 h7

/-- C8 witness: a venue outside the seven configured exchanges falls back to
the input unchanged. -/
theorem C8_witness :
    split_symbol ("kraken").data ("XBTUSD").data
      = .ok (("XBTUSD").data, [], ("XBTUSD").data) :=
  (C8_theorem ("kraken").data ("XBTUSD").data).2 (by decide) (by decide)

lemma mem_dictSet {m : SideMap} {p q : ℚ} {e : ℚ × ℚ} (h : e ∈ dictSet m p q) :
    e ∈ m ∨ e = (p, q) := by
  unfold dictSet at h
  split at h
  · rcases List.mem_map.mp h with ⟨x, hx, hfx⟩
    by_cases hxp : x.1 = p
    · right; rw [← hfx, if_pos hxp]
    · left; rw [← hfx, if_neg hxp]; exact hx
  · rcases List.mem_append.mp h with hm | he
    · exact Or.inl hm
    · right; simpa using he

lemma zero_free_dictSet {m : SideMap} {p q : ℚ} (hm : zero_free m) (hq : q ≠ 0) :
    zero_free (dictSet m p q) := by
  intro e he
  rcases mem_dictSet he with h | rfl
  · exact hm e h
  · exact hq

lemma zero_free_dictPop {m : SideMap} {p : ℚ} (hm : zero_free m) :
    zero_free (dictPop m p) :=
  fun e he => hm e (List.mem_of_mem_filter he)

lemma zero_free_upsert_side {m : SideMap} (updates : List (ℚ × ℚ)) (hm : zero_free m) :
    zero_free (LocalOrderBook.upsert_side m updates) := by
  induction updates generalizing m with
  | nil => exact hm
  | cons u rest ih =>
    rw [show LocalOrderBook.upsert_side m (u :: rest)
        = LocalOrderBook.upsert_side (if u.2 = 0 then dictPop m u.1 else dictSet m u.1 u.2) rest
      from rfl]
    by_cases hu : u.2 = 0
    · rw [if_pos hu]; exact ih (zero_free_dictPop hm)
    · rw [if_neg hu]; exact ih (zero_free_dictSet hm hu)

lemma zero_free_foldl_dictSet :
    ∀ (pairs : List (ℚ × ℚ)) (acc : SideMap), zero_free acc → zero_free pairs →
      zero_free (pairs.foldl (fun d e => dictSet d e.1 e.2) acc)
  | [], _, ha, _ => ha
  | u :: rest, acc, ha, hp => by
    rw [List.foldl_cons]
    exact zero_free_foldl_dictSet rest _ (zero_free_dictSet ha (hp u (by simp)))
      (fun e he => hp e (by simp [he]))

lemma zero_free_dictOfPairs {pairs : List (ℚ × ℚ)} (hp : zero_free pairs) :
    zero_free (dictOfPairs pairs) :=
  zero_free_foldl_dictSet pairs [] (fun e he => absurd he (List.not_mem_nil e)) hp

lemma zero_free_apply_op {book : LocalOrderBook} {op : BookOp}
    (hb : zero_free book.bids) (ha : zero_free book.asks)
    (hop : replace_payload_ok op = true) :
    zero_free (apply_op book op).bids ∧ zero_free (apply_op book op).asks := by
  cases op with
  | upsert side updates =>
    cases side
    · exact ⟨zero_free_upsert_side updates hb, ha⟩
    · exact ⟨hb, zero_free_upsert_side updates ha⟩
  | replace side pairs =>
    have hp : zero_free pairs := of_decide_eq_true hop
    cases side
    · exact ⟨zero_free_dictOfPairs hp, ha⟩
    · exact ⟨hb, zero_free_dictOfPairs hp⟩

lemma zero_free_apply_ops :
    ∀ (ops : List BookOp) (book : LocalOrderBook),
      zero_free book.bids → zero_free book.asks →
      (∀ op ∈ ops, replace_payload_ok op = true) →
      zero_free (apply_ops book ops).bids ∧ zero_free (apply_ops book ops).asks
  | [], _, hb, ha, _ => ⟨hb, ha⟩
  | op :: rest, book, hb, ha, hops => by
    rw [show apply_ops book (op :: rest) = apply_ops (apply_op book op) rest from rfl]
    have h := zero_free_apply_op hb ha (hops op (by simp))
    exact zero_free_apply_ops rest _ h.1 h.2 (fun o ho => hops o (by simp [ho]))

lemma dictGet_dictPop (m : SideMap) (p : ℚ) : dictGet (dictPop m p) p = none := by
  induction m with
  | nil => rfl
  | cons e rest ih =>
    by_cases h : e.1 = p
    · simpa [dictPop, dictGet, List.filter_cons, h] using ih
    · simpa [dictPop, dictGet, List.filter_cons, List.find?_cons, h] using ih

lemma upsert_zero_removes (m : SideMap) (p : ℚ) :
    dictGet (LocalOrderBook.upsert_side m [(p, 0)]) p = none := by
  show dictGet (if (0 : ℚ) = 0 then dictPop m p else dictSet m p 0) p = none
  rw [if_pos rfl]
  exact dictGet_dictPop m p

/-- C2 counterexample: a full-replacement update, as the full-snapshot venues
perform it (a dict comprehension over the venue payload), stores a zero
quantity verbatim: after replacing the bid side with `[(100, 0)]`, the bid
map holds price level 100 with stored quantity 0. -/
theorem C2_counterexample :
    (apply_ops ⟨[], [], [], 0⟩ [BookOp.replace Side.bid [(100, 0)]]).bids
        = [((100 : ℚ), (0 : ℚ))]
  ∧ ¬ zero_free [((100 : ℚ), (0 : ℚ))] := by decide

/-- C2 (amended): under incremental `upsert_side` updates no side map ever
holds a zero-quantity level, and an update `(p, 0)` removes the key `p`; a
full-replacement assignment stores the venue payload verbatim, so the
invariant is preserved only when every replacement payload is itself free of
zero quantities — which the code does not enforce. -/
theorem C2_theorem (book : LocalOrderBook) (ops : List BookOp)
    (hb : zero_free book.bids) (ha : zero_free book.asks)
    (hops : ∀ op ∈ ops, replace_payload_ok op = true) :
    (zero_free (apply_ops book ops).bids ∧ zero_free (apply_ops book ops).asks)
  ∧ (∀ (m : SideMap) (p : ℚ), dictGet (LocalOrderBook.upsert_side m [(p, 0)]) p = none) :=
  ⟨zero_free_apply_ops ops book hb ha hops, fun m p => upsert_zero_removes m p⟩

/-- C2 witness: a zero-quantity upsert removes the level and a zero-free
replacement keeps both sides zero-free, at a concrete book. -/
theorem C2_witness :
    zero_free (apply_ops ⟨[], [(1, 2)], [(5, 1)], 0⟩
      [BookOp.upsert Side.bid [(1, 0), (2, 3)], BookOp.replace Side.ask [(6, 1)]]).bids :=
  (C2_theorem ⟨[], [(1, 2)], [(5, 1)], 0⟩
    [BookOp.upsert Side.bid [(1, 0), (2, 3)], BookOp.replace Side.ask [(6, 1)]]
    (by decide) (by decide) (by decide)).1.1

lemma pairwise_strict_desc {l : List (ℚ × ℚ)}
    (hs : List.Pairwise bidOrder l) (hn : (l.map Prod.fst).Nodup) :
    l.Pairwise (fun x y : ℚ × ℚ => y.1 < x.1) := by
  have hne : l.Pairwise (fun x y : ℚ × ℚ => x.1 ≠ y.1) := List.pairwise_map.mp hn
  exact (hs.and hne).imp fun h => lt_of_le_of_ne h.1 (Ne.symm h.2)

lemma pairwise_strict_asc {l : List (ℚ × ℚ)}
    (hs : List.Pairwise askOrder l) (hn : (l.map Prod.fst).Nodup) :
    l.Pairwise (fun x y : ℚ × ℚ => x.1 < y.1) := by
  have hne : l.Pairwise (fun x y : ℚ × ℚ => x.1 ≠ y.1) := List.pairwise_map.mp hn
  exact (hs.and hne).imp fun h => lt_of_le_of_ne h.1 h.2

/-- C3: for every `LocalOrderBook` with dict sides (distinct keys) and
non-empty bid and ask maps, and every `N`, `snapshot(N).bids` is sorted
strictly descending by price with length `min(N, |bids|)`, and
`snapshot(N).asks` is sorted strictly ascending by price with length
`min(N, |asks|)`. -/
theorem C3_theorem (book : LocalOrderBook) (now : ℚ) (N : ℕ)
    (hb : keysNodup book.bids) (ha : keysNodup book.asks)
    (hbne : book.bids ≠ []) (hane : book.asks ≠ []) :
    ((book.snapshot now N).bids.Pairwise (fun x y : ℚ × ℚ => y.1 < x.1)
      ∧ (book.snapshot now N).bids.length = min N book.bids.length)
  ∧ ((book.snapshot now N).asks.Pairwise (fun x y : ℚ × ℚ => x.1 < y.1)
      ∧ (book.snapshot now N).asks.length = min N book.asks.length) := by
  have hpb : (List.insertionSort bidOrder book.bids).Perm book.bids :=
    List.perm_insertionSort bidOrder book.bids
  have hpa : (List.insertionSort askOrder book.asks).Perm book.asks :=
    List.perm_insertionSort askOrder book.asks
  refine ⟨⟨?_, ?_⟩, ?_, ?_⟩
  · refine List.Pairwise.sublist (List.take_sublist N _) ?_
    refine pairwise_strict_desc (List.sorted_insertionSort bidOrder book.bids) ?_
    exact ((hpb.map Prod.fst).nodup_iff).mpr hb
  · show ((List.insertionSort bidOrder book.bids).take N).length = _
    rw [List.length_take, hpb.length_eq]
  · refine List.Pairwise.sublist (List.take_sublist N _) ?_
    refine pairwise_strict_asc (List.sorted_insertionSort askOrder book.asks) ?_
    exact ((hpa.map Prod.fst).nodup_iff).mpr ha
  · show ((List.insertionSort askOrder book.asks).take N).length = _
    rw [List.length_take, hpa.length_eq]

/-- C3 witness: the sortedness and lengths at a concrete two-level book. -/
theorem C3_witness :
    ((LocalOrderBook.snapshot ⟨[], [(1, 2), (3, 1)], [(7, 1), (5, 2)], 0⟩ 0 1).bids.Pairwise
          (fun x y : ℚ × ℚ => y.1 < x.1)
      ∧ (LocalOrderBook.snapshot ⟨[], [(1, 2), (3, 1)], [(7, 1), (5, 2)], 0⟩ 0 1).bids.length
          = min 1 2)
  ∧ ((LocalOrderBook.snapshot ⟨[], [(1, 2), (3, 1)], [(7, 1), (5, 2)], 0⟩ 0 1).asks.Pairwise
          (fun x y : ℚ × ℚ => x.1 < y.1)
      ∧ (LocalOrderBook.snapshot ⟨[], [(1, 2), (3, 1)], [(7, 1), (5, 2)], 0⟩ 0 1).asks.length
          = min 1 2) :=
  C3_theorem ⟨[], [(1, 2), (3, 1)], [(7, 1), (5, 2)], 0⟩ 0 1
    (by decide) (by decide) (by decide) (by decide)

/-- An empty local order book for the Upbit `KRW-BTC` market. -/
def lob_krw_btc : LocalOrderBook :=
  { symbol := ("KRW-BTC").data, bids := [], asks := [], last_update_id := 0 }

/-- C5 counterexample: a single malformed Binance message (no `data` key) is
not dropped — the uncaught `KeyError` leaves the read loop and the connection
is torn down, although the inbound trace contains no transport failure. -/
theorem C5_counterexample :
    (run_connection binance_handle lob_krw_btc 0 [WireItem.msg { data := none }]).2.2
        = ConnEnd.parse_teardown
  ∧ ConnEnd.parse_teardown ≠ ConnEnd.transport_teardown
  ∧ [WireItem.msg ({ data := none } : BinanceMsg)].all
      (fun w => decide (w ≠ WireItem.transport_failure)) = true := by decide

/-- C5 (amended): a message the read loop's shape guards reject (e.g. an
Upbit frame whose type is not `"orderbook"`) is dropped without tearing down
the connection; but a malformed message that passes the guards and lacks a
required field raises out of the read loop and tears the connection down —
the same teardown/reconnect path as a transport failure, so teardown is not
limited to transport-level failures. -/
theorem C5_theorem (lob : LocalOrderBook) (recv_ts : ℚ) (m : UpbitMsg)
    (rest : List (WireItem UpbitMsg)) (hty : m.type ≠ some ("orderbook").data) :
    run_connection upbit_handle lob recv_ts (WireItem.msg m :: rest)
      = run_connection upbit_handle lob recv_ts rest
  ∧ (∀ (l2 : LocalOrderBook) (tr : List (WireItem BinanceMsg)),
      run_connection binance_handle l2 recv_ts (WireItem.msg { data := none } :: tr)
        = (l2, [], ConnEnd.parse_teardown))
  ∧ (∀ (l3 : LocalOrderBook) (tr : List (WireItem UpbitMsg)),
      run_connection upbit_handle l3 recv_ts (WireItem.transport_failure :: tr)
        = (l3, [], ConnEnd.transport_teardown)) := by
  refine ⟨?_, fun l2 tr => rfl, fun l3 tr => rfl⟩
  have h : upbit_handle lob recv_ts m = .ok (lob, none) := by
    simp only [upbit_handle]
    rw [if_pos hty]
  rcases hR : run_connection upbit_handle lob recv_ts rest with ⟨a, b, c⟩
  simp [run_connection, h, hR]

/-- C5 witness: a non-orderbook Upbit frame is dropped; the connection state
is as if the frame had never arrived. -/
theorem C5_witness :
    run_connection upbit_handle lob_krw_btc 0
      [WireItem.msg ⟨some ("ticker").data, none, none, none⟩]
      = run_connection upbit_handle lob_krw_btc 0 [] :=
  (C5_theorem lob_krw_btc 0 ⟨some ("ticker").data, none, none, none⟩ [] (by decide)).1

/-- A depth snapshot whose best bid price is 0: both sides non-empty. -/
def depth_zero_bid : DepthSnapshot := ⟨[], 0, [(0, 1)], [(1, 1)], 0⟩

/-- C1 counterexample: at a depth snapshot with non-empty bids `[(0, 1)]` and
non-empty asks `[(1, 1)]`, the stored `mid_price` and `spread_bps` are null —
`if best_bid and best_ask:` tests Python truthiness, and the best bid price
`0.0` is falsy — although the claim requires `mid_price = (0 + 1) / 2`. -/
theorem C1_counterexample :
    depth_zero_bid.bids.length = 1 ∧ depth_zero_bid.asks.length = 1
  ∧ (derive_metrics depth_zero_bid).map (fun m => m.2.2) = .ok (none, none)
  ∧ (derive_metrics depth_zero_bid).map (fun m => m.2.2.1)
      ≠ .ok (some ((0 + 1 : ℚ) / 2)) := by decide

/-- C1 (amended): for every event row the ingestor stores, when both depth
sides are non-empty AND both best-entry prices are nonzero (Python
truthiness, so a zero best price behaves like a missing side) and their sum
is nonzero (else the spread division raises and the event is skipped), the
stored `mid_price` is `(bestBid+bestAsk)/2` and `spread_bps` is
`((bestAsk-bestBid)/mid_price)*10000`; if either side is empty both fields
are null, never a substituted zero; and the stored row's fields are exactly
the derived metrics. -/
theorem C1_theorem :
    (∀ (d : DepthSnapshot) (b bq a aq : ℚ),
      d.bids.head? = some (b, bq) → d.asks.head? = some (a, aq) →
      b ≠ 0 → a ≠ 0 → (b + a) / 2 ≠ 0 →
      derive_metrics d = .ok (some b, some a, some ((b + a) / 2),
        some ((a - b) / ((b + a) / 2) * 10000)))
  ∧ (∀ d : DepthSnapshot, d.bids = [] ∨ d.asks = [] →
      derive_metrics d
        = .ok (d.bids.head?.map Prod.fst, d.asks.head?.map Prod.fst, none, none))
  ∧ (∀ (ev : OBEvent) (r : QRow), build_row ev = .ok r →
      derive_metrics ev.depth = .ok (r.best_bid, r.best_ask, r.mid_price, r.spread_bps)) := by
  refine ⟨?_, ?_, ?_⟩
  · intro d b bq a aq hb ha hbz haz hmz
    simp only [derive_metrics, hb, ha, Option.map_some']
    rw [if_pos (by simp [pyTruthy, hbz, haz]), if_neg hmz]
  · intro d hd
    rcases hd with hd | hd
    · simp [derive_metrics, hd, pyTruthy]
    · simp [derive_metrics, hd, pyTruthy]
  · intro ev r h
    simp only [build_row] at h
    rcases hs : split_symbol ev.exchange ev.venue_symbol with e | ⟨base, quote, norm⟩ <;>
      rw [hs] at h
    · simp at h
    · rcases hd : derive_metrics ev.depth with e | ⟨bb, ba, mid, spr⟩ <;> rw [hd] at h
      · simp at h
      · simp only [Except.ok.injEq] at h
        subst h
        rfl

/-- C1 witness: at a book with best bid 100 and best ask 101, the stored mid
price is `(100+101)/2` and the spread is `((101-100)/((100+101)/2))*10000`. -/
theorem C1_witness :
    derive_metrics ⟨[], 0, [(100, 1)], [(101, 1)], 0⟩
      = .ok (some 100, some 101, some (((100 : ℚ) + 101) / 2),
        some ((101 - 100) / (((100 : ℚ) + 101) / 2) * 10000)) :=
  C1_theorem.1 ⟨[], 0, [(100, 1)], [(101, 1)], 0⟩ 100 1 101 1 rfl rfl
    (by norm_num) (by norm_num) (by norm_num)

lemma ingest_batch_foldl (l : List OBEvent) :
    ∀ rows : List QRow,
      l.foldl (fun rows ev => match build_row ev with
        | .ok r => rows ++ [r]
        | .error _ => rows) rows
      = rows ++ l.filterMap (fun ev => (build_row ev).toOption) := by
  induction l with
  | nil => intro rows; simp
  | cons ev rest ih =>
    intro rows
    rw [List.foldl_cons, List.filterMap_cons]
    rcases h : build_row ev with e | r <;>
      simp [Except.toOption, ih, List.append_assoc]

lemma ingest_batch_eq (l : List OBEvent) :
    ingest_batch l = l.filterMap (fun ev => (build_row ev).toOption) := by
  simpa using ingest_batch_foldl l []

lemma ingest_batch_append (l1 l2 : List OBEvent) :
    ingest_batch (l1 ++ l2) = ingest_batch l1 ++ ingest_batch l2 := by
  simp [ingest_batch_eq, List.filterMap_append]

lemma questdb_consumer_flushes_foldl (batches : List (List OBEvent)) :
    ∀ out : List (List QRow),
      batches.foldl (fun out batch => out ++ [ingest_batch batch]) out
        = out ++ batches.map ingest_batch := by
  induction batches with
  | nil => intro out; simp
  | cons b rest ih => intro out; simp [ih]

/-- C10: a per-event failure in the ingestor (for instance the okx
`ValueError` out of `split_symbol`) is caught and skipped: the rows written
for a batch containing a failing event are exactly those of the surrounding
events, in order; every consumed batch produces exactly one flush carrying
exactly the successfully built rows of that batch (submitted before the
flush), and neither the batch nor the consumer loop is aborted. -/
theorem C10_theorem (pre post : List OBEvent) (ev : OBEvent)
    (batches : List (List OBEvent)) (h : build_row ev = .error ()) :
    ingest_batch (pre ++ ev :: post) = ingest_batch pre ++ ingest_batch post
  ∧ questdb_consumer_flushes batches = batches.map ingest_batch
  ∧ (questdb_consumer_flushes batches).length = batches.length := by
  have h1 : ingest_batch [ev] = [] := by
    simp [ingest_batch_eq, h, Except.toOption]
  have h2 : questdb_consumer_flushes batches = batches.map ingest_batch := by
    simpa using questdb_consumer_flushes_foldl batches []
  refine ⟨?_, h2, by rw [h2]; simp⟩
  rw [show pre ++ ev :: post = pre ++ [ev] ++ post by simp, ingest_batch_append,
    ingest_batch_append, h1, List.append_nil]

/-- An event whose row construction raises: okx venue symbol with two
dashes, so `split_symbol` raises `ValueError` inside the `try` block. -/
def ev_bad : OBEvent :=
  ⟨("okx").data, ("BTC-USD").data, ("BTC-USDT-SWAP").data, 0, 0, 0, ⟨[], 0, [], [], 0⟩, []⟩

/-- C10 witness: a batch consisting of one failing event yields an empty row
set but no abort — the surrounding (empty) parts of the batch are written. -/
theorem C10_witness :
    ingest_batch ([] ++ ev_bad :: []) = ingest_batch [] ++ ingest_batch [] :=
  (C10_theorem [] [] ev_bad [] (by decide)).1

lemma broadcaster_run_eq {ε : Type} (evs : List ε) :
    ∀ queues : List (List ε), broadcaster_run evs queues = queues.map (fun q => q ++ evs) := by
  induction evs with
  | nil => intro qs; simp [broadcaster_run]
  | cons e rest ih =>
    intro qs
    rw [show broadcaster_run (e :: rest) qs = broadcaster_run rest (broadcaster_step qs e)
      from rfl, ih]
    simp [broadcaster_step, List.map_map, Function.comp, List.append_assoc]

/-- The events a batcher state accounts for: already emitted batches plus the
pending buffer. -/
def emitted {T α : Type} (s : BatcherState T α) : List α :=
  s.batches.flatten ++ s.buf

lemma flush_check_emitted {T α : Type} [LinearOrderedAddCommGroup T] [DecidableEq α]
    (B : ℕ) (W : T) (s : BatcherState T α) :
    emitted (flush_check B W s) = emitted s := by
  unfold flush_check emitted
  split
  · simp
  · rfl

lemma batcher_step_emitted {T α : Type} [LinearOrderedAddCommGroup T] [DecidableEq α]
    (B : ℕ) (W : T) (s : BatcherState T α) (e : T × α) :
    emitted (batcher_step B W s e) = emitted s ++ [e.2] := by
  simp only [batcher_step]
  by_cases h : s.now + W ≤ e.1
  · rw [if_pos h, flush_check_emitted]
    have h1 := flush_check_emitted B W (⟨s.buf, s.last_flush, s.now + W, s.batches⟩ : BatcherState T α)
    simp only [emitted] at h1 ⊢
    rw [← List.append_assoc, h1]
  · rw [if_neg h, flush_check_emitted]
    simp [emitted, List.append_assoc]

lemma batcher_foldl_emitted {T α : Type} [LinearOrderedAddCommGroup T] [DecidableEq α]
    (B : ℕ) (W : T) :
    ∀ (evs : List (T × α)) (s : BatcherState T α),
      emitted (evs.foldl (batcher_step B W) s) = emitted s ++ evs.map Prod.snd
  | [], s => by simp
  | e :: rest, s => by
    rw [List.foldl_cons, batcher_foldl_emitted B W rest _, batcher_step_emitted]
    simp

/-- C7: the distributor delivers to every registered consumer queue exactly
the published events, none dropped or duplicated, appended in submission
order; and concatenating the batcher's emitted batches in emission order
yields exactly its input event sequence. -/
theorem C7_theorem {T α : Type} [LinearOrderedAddCommGroup T] [DecidableEq α]
    (evs : List α) (queues : List (List α)) (B : ℕ) (W start : T)
    (tevs : List (T × α)) :
    broadcaster_run evs queues = queues.map (fun q => q ++ evs)
  ∧ (batcher_batches B W start tevs).flatten = tevs.map Prod.snd := by
  refine ⟨broadcaster_run_eq evs queues, ?_⟩
  have h : emitted (batcher_run B W start tevs) = tevs.map Prod.snd := by
    have := batcher_foldl_emitted B W tevs (⟨[], start, start, []⟩ : BatcherState T α)
    simpa [emitted] using this
  simp only [batcher_batches]
  by_cases hb : (batcher_run B W start tevs).buf = []
  · rw [if_pos hb]
    simp only [emitted, hb, List.append_nil] at h
    simpa using h
  · rw [if_neg hb]
    simp only [emitted] at h
    simpa using h

/-- The batcher counting invariant: after some events have been processed,
`B·(batches emitted) + (buffered) = events seen`, the buffer holds fewer than
`B` events, and the last flush time and clock never precede the start. -/
def BatcherInv {T α : Type} [LinearOrderedAddCommGroup T] (B : ℕ) (start : T)
    (k : ℕ) (s : BatcherState T α) : Prop :=
  B * s.batches.length + s.buf.length = k ∧ s.buf.length < B
  ∧ start ≤ s.last_flush ∧ start ≤ s.now

lemma batcher_step_inv {T α : Type} [LinearOrderedAddCommGroup T] [DecidableEq α]
    (B : ℕ) (W start : T) (s : BatcherState T α) (e : T × α) (k : ℕ)
    (ht1 : start ≤ e.1) (ht2 : e.1 < start + W) (hs : BatcherInv B start k s) :
    BatcherInv B start (k + 1) (batcher_step B W s e) := by
  obtain ⟨hk, hrB, hlf, hnow⟩ := hs
  have hno : ¬ s.now + W ≤ e.1 := by
    intro h
    exact absurd ht2 (not_lt.mpr (le_trans (add_le_add_right hnow W) h))
  have hnt : ¬ W ≤ e.1 - s.last_flush := by
    intro h
    have h2 : s.last_flush + W ≤ e.1 := by
      have h3 := le_sub_iff_add_le.mp h
      rwa [add_comm] at h3
    exact absurd ht2 (not_lt.mpr (le_trans (add_le_add_right hlf W) h2))
  simp only [batcher_step, if_neg hno, flush_check]
  by_cases hsz : B ≤ (s.buf ++ [e.2]).length
  · rw [if_pos ⟨Or.inl hsz, by simp⟩]
    rw [List.length_append, List.length_singleton] at hsz
    have hlen : s.buf.length + 1 = B := by omega
    refine ⟨?_, by show ([] : List α).length < B; simp; omega, ht1, ht1⟩
    show B * (s.batches ++ [s.buf ++ [e.2]]).length + ([] : List α).length = k + 1
    have h2 : B * s.batches.length + (s.buf.length + 1) = k + 1 := by
      rw [← Nat.add_assoc, hk]
    rw [hlen] at h2
    rw [List.length_append, List.length_singleton, List.length_nil, Nat.add_zero,
      Nat.mul_add, Nat.mul_one]
    exact h2
  · rw [if_neg ?hcond]
    case hcond =>
      rintro ⟨hor, -⟩
      rcases hor with h | ⟨-, hW⟩
      · exact hsz h
      · exact hnt hW
    rw [List.length_append, List.length_singleton] at hsz
    refine ⟨?_, ?_, hlf, ht1⟩
    · show B * s.batches.length + (s.buf ++ [e.2]).length = k + 1
      rw [List.length_append, List.length_singleton, ← Nat.add_assoc, hk]
    · show (s.buf ++ [e.2]).length < B
      rw [List.length_append, List.length_singleton]
      omega

lemma batcher_run_inv {T α : Type} [LinearOrderedAddCommGroup T] [DecidableEq α]
    (B : ℕ) (W start : T) :
    ∀ (evs : List (T × α)) (s : BatcherState T α) (k : ℕ),
      (∀ e ∈ evs, start ≤ e.1 ∧ e.1 < start + W) → BatcherInv B start k s →
      BatcherInv B start (k + evs.length) (evs.foldl (batcher_step B W) s)
  | [], s, k, _, hs => by simpa using hs
  | e :: rest, s, k, hw, hs => by
    rw [List.foldl_cons]
    have h1 := batcher_step_inv B W start s e k (hw e (by simp)).1 (hw e (by simp)).2 hs
    have h2 := batcher_run_inv B W start rest (batcher_step B W s e) (k + 1)
      (fun x hx => hw x (by simp [hx])) h1
    have hlen : k + 1 + rest.length = k + (e :: rest).length := by
      simp [List.length_cons]; omega
    rwa [hlen] at h2

lemma ceil_div_emit (B q r : ℕ) (hB : 1 ≤ B) (hr : r < B) :
    q + (if r = 0 then 0 else 1) = ceil_div (B * q + r) B := by
  unfold ceil_div
  by_cases h0 : r = 0
  · subst h0
    rw [if_pos rfl, Nat.add_zero, Nat.add_zero]
    have h1 : B * q + B - 1 = (B - 1) + q * B := by
      rw [Nat.mul_comm]
      generalize q * B = x
      omega
    rw [h1, Nat.add_mul_div_right _ _ (show 0 < B by omega),
      Nat.div_eq_of_lt (show B - 1 < B by omega)]
    omega
  · rw [if_neg h0]
    have hr1 : 1 ≤ r := Nat.one_le_iff_ne_zero.mpr h0
    have h1 : B * q + r + B - 1 = (r - 1) + (q + 1) * B := by
      rw [Nat.add_mul, Nat.one_mul, Nat.mul_comm q B]
      generalize B * q = x
      omega
    rw [h1, Nat.add_mul_div_right _ _ (by omega : 0 < B),
      Nat.div_eq_of_lt (by omega : r - 1 < B)]
    omega

lemma flush_check_batches_mem {T α : Type} [LinearOrderedAddCommGroup T] [DecidableEq α]
    (B : ℕ) (W : T) (s : BatcherState T α)
    (hs : ∀ b ∈ s.batches, b ≠ []) :
    ∀ b ∈ (flush_check B W s).batches, b ≠ [] := by
  unfold flush_check
  split
  · rename_i h
    intro b hb
    rcases List.mem_append.mp hb with h1 | h1
    · exact hs b h1
    · rw [List.mem_singleton] at h1
      subst h1
      exact h.2
  · exact hs

lemma batcher_step_batches_mem {T α : Type} [LinearOrderedAddCommGroup T] [DecidableEq α]
    (B : ℕ) (W : T) (s : BatcherState T α) (e : T × α)
    (hs : ∀ b ∈ s.batches, b ≠ []) :
    ∀ b ∈ (batcher_step B W s e).batches, b ≠ [] := by
  simp only [batcher_step]
  by_cases h : s.now + W ≤ e.1
  · rw [if_pos h]
    exact flush_check_batches_mem B W _
      (flush_check_batches_mem B W (⟨s.buf, s.last_flush, s.now + W, s.batches⟩ : BatcherState T α) hs)
  · rw [if_neg h]
    exact flush_check_batches_mem B W _ hs

lemma batcher_run_batches_mem {T α : Type} [LinearOrderedAddCommGroup T] [DecidableEq α]
    (B : ℕ) (W : T) :
    ∀ (evs : List (T × α)) (s : BatcherState T α),
      (∀ b ∈ s.batches, b ≠ []) →
      ∀ b ∈ (evs.foldl (batcher_step B W) s).batches, b ≠ []
  | [], _, hs => hs
  | e :: rest, s, hs => by
    rw [List.foldl_cons]
    exact batcher_run_batches_mem B W rest _ (batcher_step_batches_mem B W s e hs)

/-- Whether every consecutive pair of timed events arrives strictly less
than `W` apart. -/
def gaps_lt {T α : Type} [LinearOrderedAddCommGroup T] (W : T) : List (T × α) → Bool
  | [] => true
  | [_] => true
  | e :: f :: rest => decide (f.1 - e.1 < W) && gaps_lt W (f :: rest)

/-- C4 counterexample: with batch size 100 and max wait 2, five events at
times 0, 1, 2, 3, 4 — every consecutive gap strictly below the max wait —
produce two batches, `[1,2,3]` then `[4,5]`, not `ceil(5/100) = 1`: the
time-based flush fires whenever a full wait has elapsed since the last
flush, splitting a steadily arriving stream. -/
theorem C4_counterexample :
    gaps_lt (2 : ℤ) [((0 : ℤ), (1 : ℕ)), (1, 2), (2, 3), (3, 4), (4, 5)] = true
  ∧ batcher_batches 100 (2 : ℤ) 0 [((0 : ℤ), (1 : ℕ)), (1, 2), (2, 3), (3, 4), (4, 5)]
      = [[1, 2, 3], [4, 5]]
  ∧ (batcher_batches 100 (2 : ℤ) 0
      [((0 : ℤ), (1 : ℕ)), (1, 2), (2, 3), (3, 4), (4, 5)]).length = 2
  ∧ ceil_div 5 100 = 1 := by decide

/-- C4 (amended): every batch the batcher emits is non-empty, for every
input whatsoever; and the batcher emits exactly `ceil(N/B)` batches when all
`N` events arrive strictly within one max-wait window `W` of the batcher's
start.  Events merely arriving less than `W` apart do not suffice: the
time-based flush fires `W` after the last flush (not after the last event),
splitting a steady stream into more than `ceil(N/B)` batches. -/
theorem C4_theorem {T α : Type} [LinearOrderedAddCommGroup T] [DecidableEq α]
    (B : ℕ) (W start : T) (evs : List (T × α)) (hB : 1 ≤ B)
    (hwin : ∀ e ∈ evs, start ≤ e.1 ∧ e.1 < start + W) :
    (batcher_batches B W start evs).length = ceil_div evs.length B
  ∧ (∀ (B2 : ℕ) (W2 start2 : T) (evs2 : List (T × α)) (b : List α),
      b ∈ batcher_batches B2 W2 start2 evs2 → b ≠ []) := by
  constructor
  · have h0 : BatcherInv B start 0 (⟨[], start, start, []⟩ : BatcherState T α) := by
      refine ⟨by simp, ?_, le_refl start, le_refl start⟩
      show ([] : List α).length < B
      simp only [List.length_nil]
      omega
    have h : BatcherInv B start (0 + evs.length) (batcher_run B W start evs) :=
      batcher_run_inv B W start evs ⟨[], start, start, []⟩ 0 hwin h0
    obtain ⟨hk, hrB, -, -⟩ := h
    rw [Nat.zero_add] at hk
    simp only [batcher_batches]
    by_cases hb : (batcher_run B W start evs).buf = []
    · rw [if_pos hb, List.append_nil]
      have hr0 : (batcher_run B W start evs).buf.length = 0 := by rw [hb]; rfl
      rw [hr0] at hk
      have hce := ceil_div_emit B (batcher_run B W start evs).batches.length 0 hB (by omega)
      rw [if_pos rfl, Nat.add_zero, Nat.add_zero] at hce
      rw [← hk]
      exact hce
    · rw [if_neg hb, List.length_append, List.length_singleton]
      have hr1 : 0 < (batcher_run B W start evs).buf.length := List.length_pos.mpr hb
      have hce := ceil_div_emit B (batcher_run B W start evs).batches.length
        (batcher_run B W start evs).buf.length hB hrB
      rw [if_neg (by omega)] at hce
      rw [← hk]
      exact hce
  · intro B2 W2 start2 evs2 b hb
    simp only [batcher_batches] at hb
    rcases List.mem_append.mp hb with h | h
    · exact batcher_run_batches_mem B2 W2 evs2 ⟨[], start2, start2, []⟩
        (by intro x hx; cases hx) b h
    · by_cases hbuf : (batcher_run B2 W2 start2 evs2).buf = []
      · rw [if_pos hbuf] at h
        cases h
      · rw [if_neg hbuf] at h
        rw [List.mem_singleton] at h
        subst h
        exact hbuf

/-- C4 witness: three events all arriving within the first wait window, with
batch size 2, yield exactly `ceil(3/2) = 2` batches. -/
theorem C4_witness :
    (batcher_batches 2 (2 : ℤ) 0 [((0 : ℤ), (10 : ℕ)), (0, 11), (1, 12)]).length
      = ceil_div 3 2 :=
  (C4_theorem 2 (2 : ℤ) 0 [((0 : ℤ), (10 : ℕ)), (0, 11), (1, 12)]
    (by decide) (by decide)).1
